import Mathlib

/-!
Verification of the stock-price viewer core (`src/app.py`) against its
natural-language specification.

The embedding below follows the source file closely:

* `normalize_symbol`  — `app.py` line 21-22, `(raw or "").strip().upper()`;
  strings are modelled as `List Char`, Python `str.upper` as `Char.toUpper`
  (identical arithmetic on the ASCII range), Python `str.strip` as dropping
  the whitespace characters stripped by CPython's ASCII subset.
* `fetch_daily`       — `app.py` lines 24-60.  The network is an oracle
  `net : Nat → Resp` giving the JSON body of the i-th HTTP call; the
  function records a trace of requests and sleeps and returns either the
  parsed table or the `RuntimeError` message raised at line 50.
* `parseTable`        — `app.py` lines 52-60: the rename map, the
  `pd.to_numeric(errors="coerce")` coercion (a cell is modelled by the
  `Option ℚ` outcome of that coercion), and the ascending sort by date.
* `resample_ohlc`     — `app.py` lines 62-70: per-column resampling with
  pandas semantics (`first`/`last` take the first/last non-missing value,
  `max`/`min` ignore missing values, `sum` of an all-missing bucket is 0),
  then `dropna(how="any")`.  Calendar bucketing is abstracted by a bucket
  labelling function `b : Nat → Nat` on day numbers (pandas labels a bucket
  by its end date, e.g. `weekLabel`).
* `get_or_fetch` / `clearCache` — modelled from the spec: the memoization
  semantics of `st.cache_data(ttl=15*60)` (line 24) and
  `st.cache_data.clear()` (line 82) live in the streamlit library, not in
  the repository; the TTL value and the unconditional wipe come from the
  source.
* `fetchStage`        — `app.py` lines 94-105: the try/except block that
  records `st.session_state.last_ok[symbol]` on success and falls back to
  it on failure.
-/

namespace StockApp

/-! ## Canonical OHLCV rows -/

/-- One row of the canonical table: the date index plus the five canonical
columns.  A `none` entry is a missing value (pandas `NaN`), as produced by
`pd.to_numeric(errors="coerce")`. -/
structure Row where
  date : Nat
  Open : Option ℚ
  High : Option ℚ
  Low : Option ℚ
  Close : Option ℚ
  Volume : Option ℚ
deriving DecidableEq

/-! ## Parsing (`app.py` lines 52-60) -/

def COL_OPEN : String := "Open"

def COL_HIGH : String := "High"

def COL_LOW : String := "Low"

def COL_CLOSE : String := "Close"

def COL_VOLUME : String := "Volume"

/-- The provider-label to canonical-column rename map of `app.py` lines
52-55.  Labels outside the map are left unchanged, exactly as
`DataFrame.rename` does. -/
def renameMap (s : String) : String :=
  if s = "1. open" then COL_OPEN
  else if s = "2. high" then COL_HIGH
  else if s = "3. low" then COL_LOW
  else if s = "4. close" then COL_CLOSE
  else if s = "5. volume" then COL_VOLUME
  else if s = "5. adjusted close" then COL_CLOSE
  else if s = "6. volume" then COL_VOLUME
  else s

/-- The field labels of one bar of the primary `TIME_SERIES_DAILY` series. -/
def primaryFieldLabels : List String :=
  ["1. open", "2. high", "3. low", "4. close", "5. volume"]

/-- The field labels of one bar of the `TIME_SERIES_DAILY_ADJUSTED` series. -/
def adjustedFieldLabels : List String :=
  ["1. open", "2. high", "3. low", "4. close", "5. adjusted close",
   "6. volume", "7. dividend amount", "8. split coefficient"]

/-- How many of the given raw labels are renamed to `lbl` by the rename map
of lines 52-55 — i.e. how many columns with that canonical name the renamed
frame has. -/
def renamedCount (lbl : String) (labels : List String) : Nat :=
  (labels.filter (fun s => renameMap s == lbl)).length

/-- One raw bar of a provider series: its date (dates are abstracted to day
numbers, as produced by `pd.to_datetime`) and its labelled cells.  A cell
carries the result of `pd.to_numeric(errors="coerce")` on the raw string:
`some q` if the string parses, `none` (pandas `NaN`) if it does not. -/
structure RawRow where
  date : Nat
  cells : List (String × Option ℚ)
deriving DecidableEq

/-- A provider time series, `data["Time Series (Daily)"]`. -/
abbrev RawSeries := List RawRow

/-- Value of the canonical column `lbl` in a raw row: the first cell whose
renamed label is `lbl` (the single-label case of pandas column selection). -/
def getCol (lbl : String) (r : RawRow) : Option ℚ :=
  match r.cells.find? (fun p => renameMap p.1 == lbl) with
  | some p => p.2
  | none => none

/-- Canonical row built from one raw bar (lines 52-58). -/
def toRow (r : RawRow) : Row :=
  ⟨r.date, getCol COL_OPEN r, getCol COL_HIGH r, getCol COL_LOW r,
   getCol COL_CLOSE r, getCol COL_VOLUME r⟩

/-- Insert a row into a list sorted ascending by date (stable). -/
def insertByDate (r : Row) : List Row → List Row
  | [] => [r]
  | x :: xs => if r.date ≤ x.date then r :: x :: xs else x :: insertByDate r xs

/-- Ascending-by-date sort, `df.sort_index()` at line 60. -/
def sortByDate (l : List Row) : List Row := l.foldr insertByDate []

/-- Lines 52-60: build the canonical table from a provider series — rename
the columns, coerce the cells, index by date and sort ascending. -/
def parseTable (ts : RawSeries) : List Row := sortByDate (ts.map toRow)

/-! ## The fetcher (`app.py` lines 24-60) -/

/-- The JSON body of one (HTTP-200) provider response, reduced to the fields
the code inspects: the rate-limit sentinel `"Note"`, the invalid-symbol
sentinel `"Error Message"`, and the two possible series keys. -/
structure Resp where
  hasNote : Bool
  hasErrorMessage : Bool
  tsDaily : Option RawSeries
  tsDailyAdjusted : Option RawSeries
deriving DecidableEq

/-- Python truthiness of `data.get(key)`: `None` and the empty dict are
falsy. -/
def truthy : Option RawSeries → Bool
  | none => false
  | some l => !l.isEmpty

/-- Python `a or b`: the first operand if truthy, otherwise the second
(line 47). -/
def pyOr (a b : Option RawSeries) : Option RawSeries :=
  if truthy a then a else b

def FN_DAILY : String := "TIME_SERIES_DAILY"

def FN_DAILY_ADJUSTED : String := "TIME_SERIES_DAILY_ADJUSTED"

/-- Observable effects of `fetch_daily`: outbound requests (by the
`function` query parameter) and back-off sleeps (seconds). -/
inductive Ev where
  | req (func : String)
  | sleep (secs : Nat)
deriving DecidableEq

/-- The message of the `RuntimeError` raised at line 50. -/
def noDataMsg : String :=
  "APIは応答しましたが日足データが見つかりません。少し待って再試行してください。"

structure FetchResult where
  trace : List Ev
  result : Except String (List Row)

/-- `fetch_daily` (lines 24-60) over a network oracle `net`, where `net i`
is the body of the i-th call issued by `_call`.  Mirrors the source: call
the daily endpoint; on a `"Note"` sentinel sleep 12 s and retry once; if
the daily series is falsy do the same against the adjusted endpoint; if
still falsy raise; otherwise parse the series found. -/
def fetch_daily (net : Nat → Resp) : FetchResult :=
  let d0 := net 0
  let step1 :=
    if d0.hasNote then
      (2, [Ev.req FN_DAILY, Ev.sleep 12, Ev.req FN_DAILY], net 1)
    else
      (1, [Ev.req FN_DAILY], d0)
  let ts := step1.2.2.tsDaily
  if truthy ts then
    { trace := step1.2.1, result := Except.ok (parseTable (ts.getD [])) }
  else
    let d2 := net step1.1
    let step2 :=
      if d2.hasNote then
        (step1.2.1 ++ [Ev.req FN_DAILY_ADJUSTED, Ev.sleep 12, Ev.req FN_DAILY_ADJUSTED],
         net (step1.1 + 1))
      else
        (step1.2.1 ++ [Ev.req FN_DAILY_ADJUSTED], d2)
    let ts2 := pyOr step2.2.tsDaily step2.2.tsDailyAdjusted
    if truthy ts2 then
      { trace := step2.1, result := Except.ok (parseTable (ts2.getD [])) }
    else
      { trace := step2.1, result := Except.error noDataMsg }

/-- The response the primary-series value is read from (the retry response
when the first response carried the rate-limit sentinel). -/
def primaryData (net : Nat → Resp) : Resp :=
  if (net 0).hasNote then net 1 else net 0

/-- Index (in the call sequence) of the first adjusted-endpoint call, when
one is made. -/
def adjCallIdx (net : Nat → Resp) : Nat :=
  if (net 0).hasNote then 2 else 1

/-- Length of the trace produced by the primary-endpoint phase. -/
def dailyTraceLen (net : Nat → Resp) : Nat :=
  if (net 0).hasNote then 3 else 1

/-- The response the adjusted-series value is read from. -/
def adjData (net : Nat → Resp) : Resp :=
  if (net (adjCallIdx net)).hasNote then net (adjCallIdx net + 1)
  else net (adjCallIdx net)

/-- Number of requests to the endpoint `f` in a trace. -/
def countReq (f : String) (tr : List Ev) : Nat :=
  (tr.filter (fun e => e == Ev.req f)).length

/-! ## The resampler (`app.py` lines 62-70) -/

/-- First non-missing value of a column, pandas `Resampler.first`. -/
def firstSome : List (Option ℚ) → Option ℚ
  | [] => none
  | none :: l => firstSome l
  | some x :: _ => some x

/-- Last non-missing value of a column, pandas `Resampler.last`. -/
def lastSome (l : List (Option ℚ)) : Option ℚ := firstSome l.reverse

/-- Maximum of a list of rationals, `none` when empty (pandas `max` over
the non-missing values of a bucket). -/
def maxQ : List ℚ → Option ℚ
  | [] => none
  | x :: l => some (l.foldl max x)

/-- Minimum of a list of rationals, `none` when empty. -/
def minQ : List ℚ → Option ℚ
  | [] => none
  | x :: l => some (l.foldl min x)

/-- Sum of a list of rationals; the sum of an empty list is 0, which is
exactly pandas `sum` over an all-missing bucket (`min_count=0`). -/
def sumQ (l : List ℚ) : ℚ := l.foldl (· + ·) 0

/-- The aggregated bar of one bucket (lines 63-67): `k` is the bucket label
and `g` the rows of the bucket in date order. -/
def aggRow (k : Nat) (g : List Row) : Row :=
  { date := k
    Open := firstSome (g.map (·.Open))
    High := maxQ (g.filterMap (·.High))
    Low := minQ (g.filterMap (·.Low))
    Close := lastSome (g.map (·.Close))
    Volume := some (sumQ (g.filterMap (·.Volume))) }

/-- `dropna(how="any")` at line 70: keep a row only if all five aggregates
are present. -/
def keepRow (r : Row) : Bool :=
  r.Open.isSome && r.High.isSome && r.Low.isSome && r.Close.isSome && r.Volume.isSome

/-- First-occurrence deduplication (`seen` accumulates the keys already
emitted). -/
def uniq (seen : List Nat) : List Nat → List Nat
  | [] => []
  | k :: ks => if k ∈ seen then uniq seen ks else k :: uniq (k :: seen) ks

/-- The bucket labels of a table, in order of first appearance (for a table
sorted by date this is ascending bucket order; empty buckets produce
all-missing rows that `dropna` removes, so they are omitted here). -/
def keysIn (b : Nat → Nat) (t : List Row) : List Nat :=
  uniq [] (t.map (fun r => b r.date))

/-- The rows of bucket `k`. -/
def groupOf (b : Nat → Nat) (t : List Row) (k : Nat) : List Row :=
  t.filter (fun r => b r.date == k)

/-- `resample_ohlc` (lines 62-70): resample each column over the calendar
buckets induced by the labelling `b`, join the five columns, and drop any
row with a missing aggregate. -/
def resample_ohlc (b : Nat → Nat) (t : List Row) : List Row :=
  ((keysIn b t).map (fun k => aggRow k (groupOf b t k))).filter keepRow

/-- Pandas weekly bucket label on day numbers: the end of the 7-day bucket
containing the day (rule `"W"` labels a bucket by its last day). -/
def weekLabel (d : Nat) : Nat := d / 7 * 7 + 6

/-- The spec's per-bucket aggregation, written from the spec's words for
comparison with the code's `aggRow`: "open = first row's open in bucket
order; high = maximum high; low = minimum low; close = last row's close in
bucket order; volume = sum of volumes", an aggregate being undefined when
its input was entirely missing values. -/
def spec_aggRow (k : Nat) (g : List Row) : Row :=
  { date := k
    Open := g.head?.bind (·.Open)
    High := maxQ (g.filterMap (·.High))
    Low := minQ (g.filterMap (·.Low))
    Close := g.getLast?.bind (·.Close)
    Volume :=
      if (g.filterMap (·.Volume)).isEmpty then none
      else some (sumQ (g.filterMap (·.Volume))) }

/-- The spec's resampler ("drop any bucket where any of the five aggregates
is undefined"), for comparison with the code's `resample_ohlc`. -/
def spec_resample (b : Nat → Nat) (t : List Row) : List Row :=
  ((keysIn b t).map (fun k => spec_aggRow k (groupOf b t k))).filter keepRow

/-! ## TTL cache (modelled from the spec, §4.3) -/

/-- Cache key: `(symbol, api_key)`, the arguments of `fetch_daily`. -/
abbrev CKey := String × String

structure CacheEntry where
  table : List Row
  stamp : Nat
deriving DecidableEq

abbrev CacheState := List (CKey × CacheEntry)

/-- `@st.cache_data(ttl=15 * 60)` at line 24. -/
def TTL_SECONDS : Nat := 15 * 60

def lookupC (st : CacheState) (k : CKey) : Option CacheEntry :=
  (st.find? (fun p => p.1 == k)).map (·.2)

def putC (st : CacheState) (k : CKey) (e : CacheEntry) : CacheState :=
  (k, e) :: st.filter (fun p => !(p.1 == k))

/-- Modelled from the spec: the memoization wrapper `st.cache_data` puts
around `fetch_daily` is streamlit-library code, absent from the repository.
Spec §4.3: return a stored table whose age is within the TTL without
invoking the fetcher; on a miss or an expired entry invoke it, caching the
result only on success; propagate failures uncached.  Returns
(result, new cache state, whether the fetcher was invoked). -/
def get_or_fetch (st : CacheState) (k : CKey) (now : Nat)
    (fetcher : Unit → Except String (List Row)) :
    Except String (List Row) × CacheState × Bool :=
  match lookupC st k with
  | some e =>
    if now - e.stamp ≤ TTL_SECONDS then (Except.ok e.table, st, false)
    else
      match fetcher () with
      | Except.ok t => (Except.ok t, putC st k ⟨t, now⟩, true)
      | Except.error m => (Except.error m, st, true)
  | none =>
    match fetcher () with
    | Except.ok t => (Except.ok t, putC st k ⟨t, now⟩, true)
    | Except.error m => (Except.error m, st, true)

/-- `st.cache_data.clear()` at line 82: an unconditional wipe of all
entries. -/
def clearCache (_ : CacheState) : CacheState := []

/-! ## Last-known-good store and the fetch/fallback block (lines 87-105) -/

/-- `st.session_state.last_ok`: symbol → most recent successfully fetched
table. -/
abbrev LastOk := List (String × List Row)

def lookupLO (m : LastOk) (s : String) : Option (List Row) :=
  (m.find? (fun p => p.1 == s)).map (·.2)

def putLO (m : LastOk) (s : String) (t : List Row) : LastOk :=
  (s, t) :: m.filter (fun p => !(p.1 == s))

/-- Status message on a fresh fetch (line 98). -/
def freshMsg : String := "最新データ（APIから取得）"

/-- Fallback status text produced at line 102 is this label followed by the
exception's message. -/
def fallbackLabel : String := "フォールバック表示："

/-- Result of the fetch/fallback block: the table and status shown (`none`
means `st.stop()` ended the render pass), and the store afterwards. -/
structure RenderOutcome where
  df : Option (List Row)
  status : Option String
  last_ok : LastOk
deriving DecidableEq

/-- Lines 94-105: on success record the table in `last_ok` and show the
fresh-data status; on failure serve the last-known-good table with the
fallback status when one exists, else stop. -/
def fetchStage (res : Except String (List Row)) (symbol : String) (lo : LastOk) :
    RenderOutcome :=
  match res with
  | Except.ok df => ⟨some df, some freshMsg, putLO lo symbol df⟩
  | Except.error e =>
    match lookupLO lo symbol with
    | some df => ⟨some df, some (fallbackLabel ++ e), lo⟩
    | none => ⟨none, none, lo⟩

/-- Session state touched by the sidebar clear-cache button (lines 81-83):
the `st.cache_data` store and `st.session_state.last_ok`. -/
structure AppState where
  cache : CacheState
  last_ok : LastOk
deriving DecidableEq

/-- The clear-cache button handler (lines 81-83): wipes the cache and shows
a toast; `last_ok` is not mentioned. -/
def clearAction (s : AppState) : AppState :=
  { s with cache := clearCache s.cache }

/-! ## Symbol normalizer (`app.py` lines 21-22) -/

/-- The whitespace stripped by Python `str.strip` (ASCII range). -/
def isSpaceChar (c : Char) : Bool :=
  c == ' ' || c == '\t' || c == '\n' || c == '\r' || c == '\x0b' || c == '\x0c'

/-- Python `str.strip()`: drop leading and trailing whitespace. -/
def stripChars (l : List Char) : List Char :=
  ((l.dropWhile isSpaceChar).reverse.dropWhile isSpaceChar).reverse

/-- `normalize_symbol` (lines 21-22): `(raw or "").strip().upper()`.
`none` models Python `None`; `str.upper` is `Char.toUpper` pointwise. -/
def normalize_symbol (raw : Option (List Char)) : List Char :=
  (stripChars (raw.getD [])).map Char.toUpper

/-- Substring test over character lists (used to state what the status text
contains). -/
def isPrefOf : List Char → List Char → Bool
  | [], _ => true
  | _ :: _, [] => false
  | a :: as, b :: bs => a == b && isPrefOf as bs

def containsSub (n : List Char) : List Char → Bool
  | [] => n.isEmpty
  | b :: bs => isPrefOf n (b :: bs) || containsSub n bs

/-! ## Helper lemmas: characters and stripping -/

theorem toNat_ofNat_of_valid (n : Nat) (h : n.isValidChar) : (Char.ofNat n).toNat = n := by
  simp [Char.ofNat, dif_pos h, Char.ofNatAux, Char.toNat, UInt32.toNat]

theorem isSpaceChar_cases (c : Char) (h : isSpaceChar c = true) :
    c = ' ' ∨ c = '\t' ∨ c = '\n' ∨ c = '\r' ∨ c = '\x0b' ∨ c = '\x0c' := by
  simp only [isSpaceChar, Bool.or_eq_true, beq_iff_eq] at h
  tauto

theorem toUpper_eq_self (c : Char) (h : ¬(97 ≤ c.toNat ∧ c.toNat ≤ 122)) : c.toUpper = c := by
  simp only [Char.toUpper]
  rw [if_neg (fun h2 => h ⟨h2.1, h2.2⟩)]

theorem toUpper_toNat_lower (c : Char) (h : 97 ≤ c.toNat ∧ c.toNat ≤ 122) :
    c.toUpper.toNat = c.toNat - 32 := by
  simp only [Char.toUpper]
  rw [if_pos ⟨h.1, h.2⟩]
  exact toNat_ofNat_of_valid _ (Or.inl (by omega))

theorem isSpaceChar_toUpper (c : Char) : isSpaceChar c.toUpper = isSpaceChar c := by
  by_cases h : isSpaceChar c = true
  · rcases isSpaceChar_cases c h with h2 | h2 | h2 | h2 | h2 | h2 <;> subst h2 <;> decide
  · by_cases hc : 97 ≤ c.toNat ∧ c.toNat ≤ 122
    · have ht := toUpper_toNat_lower c hc
      simp only [Bool.not_eq_true] at h
      rw [h]
      by_contra h2
      simp only [Bool.not_eq_false] at h2
      rcases isSpaceChar_cases _ h2 with h3 | h3 | h3 | h3 | h3 | h3 <;>
        · rw [h3] at ht
          have h33 : c.toNat - 32 < 33 := by rw [← ht]; decide
          omega
    · rw [toUpper_eq_self c hc]

theorem toUpper_idem (c : Char) : c.toUpper.toUpper = c.toUpper := by
  by_cases hc : 97 ≤ c.toNat ∧ c.toNat ≤ 122
  · have ht := toUpper_toNat_lower c hc
    exact toUpper_eq_self _ (by omega)
  · rw [toUpper_eq_self c hc, toUpper_eq_self c hc]

theorem dropWhile_head_false (p : Char → Bool) :
    ∀ (l : List Char) (c : Char) (rest : List Char), l.dropWhile p = c :: rest → p c = false := by
  intro l
  induction l with
  | nil => intro c rest h; simp at h
  | cons a l ih =>
    intro c rest h
    rw [List.dropWhile_cons] at h
    by_cases ha : p a = true
    · rw [if_pos ha] at h; exact ih c rest h
    · rw [if_neg ha] at h
      injection h with h1 h2
      subst h1
      simpa using ha

theorem dropWhile_eq_self_of_head (p : Char → Bool) (l : List Char)
    (h : ∀ c rest, l = c :: rest → p c = false) : l.dropWhile p = l := by
  cases l with
  | nil => rfl
  | cons a l => rw [List.dropWhile_cons, if_neg (by simp [h a l rfl])]

theorem stripChars_head_false (l : List Char) (c : Char)
    (h : (stripChars l).head? = some c) : isSpaceChar c = false := by
  unfold stripChars at h
  rw [List.head?_reverse] at h
  set m := (l.dropWhile isSpaceChar).reverse.dropWhile isSpaceChar with hm
  have hne : m ≠ [] := by intro h0; rw [h0] at h; simp at h
  obtain ⟨pre, hpre⟩ := List.dropWhile_suffix (l := (l.dropWhile isSpaceChar).reverse) isSpaceChar
  have h2 : (l.dropWhile isSpaceChar).reverse.getLast? = some c := by
    rw [← hpre, List.getLast?_append_of_ne_nil pre hne]
    exact h
  rw [List.getLast?_reverse] at h2
  cases he : l.dropWhile isSpaceChar with
  | nil => rw [he] at h2; simp at h2
  | cons a rest =>
    rw [he] at h2
    simp only [List.head?_cons, Option.some.injEq] at h2
    subst h2
    exact dropWhile_head_false isSpaceChar l a rest he

theorem stripChars_last_false (l : List Char) (c : Char)
    (h : (stripChars l).getLast? = some c) : isSpaceChar c = false := by
  unfold stripChars at h
  rw [List.getLast?_reverse] at h
  cases he : (l.dropWhile isSpaceChar).reverse.dropWhile isSpaceChar with
  | nil => rw [he] at h; simp at h
  | cons a rest =>
    rw [he] at h
    simp only [List.head?_cons, Option.some.injEq] at h
    subst h
    exact dropWhile_head_false isSpaceChar _ a rest he

theorem stripChars_eq_self (l : List Char)
    (h1 : ∀ c, l.head? = some c → isSpaceChar c = false)
    (h2 : ∀ c, l.getLast? = some c → isSpaceChar c = false) :
    stripChars l = l := by
  have e1 : l.dropWhile isSpaceChar = l :=
    dropWhile_eq_self_of_head _ l (fun c rest hc => h1 c (by rw [hc]; rfl))
  have e2 : l.reverse.dropWhile isSpaceChar = l.reverse :=
    dropWhile_eq_self_of_head _ l.reverse
      (fun c rest hc => h2 c (by rw [← List.head?_reverse, hc]; rfl))
  unfold stripChars
  rw [e1, e2, List.reverse_reverse]

theorem stripChars_idem (l : List Char) : stripChars (stripChars l) = stripChars l :=
  stripChars_eq_self _ (stripChars_head_false l) (stripChars_last_false l)

theorem stripChars_map_toUpper (l : List Char) :
    stripChars (l.map Char.toUpper) = (stripChars l).map Char.toUpper := by
  have hf : (isSpaceChar ∘ Char.toUpper) = isSpaceChar := funext isSpaceChar_toUpper
  unfold stripChars
  rw [List.dropWhile_map, hf, ← List.map_reverse, List.dropWhile_map, hf, ← List.map_reverse]

theorem map_toUpper_idem (l : List Char) :
    (l.map Char.toUpper).map Char.toUpper = l.map Char.toUpper := by
  rw [List.map_map]
  exact List.map_congr_left (fun c _ => toUpper_idem c)

/-! ## C10 -/

/-- C10: `normalize_symbol` is total — including on `None` (modelled `none`)
and whitespace-only input — returns a string with no leading or trailing
whitespace (the empty string for `None`/empty/whitespace-only input), and
is idempotent: normalizing a normalized string changes nothing. -/
theorem normalize_symbol_total_idem (raw : Option (List Char)) :
    stripChars (normalize_symbol raw) = normalize_symbol raw ∧
    normalize_symbol none = [] ∧
    (∀ s, raw = some s → s.all isSpaceChar = true → normalize_symbol raw = []) ∧
    normalize_symbol (some (normalize_symbol raw)) = normalize_symbol raw := by
  refine ⟨?_, rfl, ?_, ?_⟩
  · unfold normalize_symbol
    rw [stripChars_map_toUpper, stripChars_idem]
  · intro s hs hall
    subst hs
    unfold normalize_symbol
    simp only [Option.getD_some]
    have hd : s.dropWhile isSpaceChar = [] := by
      rw [List.dropWhile_eq_nil_iff]
      intro x hx
      simpa using List.all_eq_true.mp hall x hx
    unfold stripChars
    rw [hd]
    rfl
  · unfold normalize_symbol
    simp only [Option.getD_some]
    rw [stripChars_map_toUpper, stripChars_idem, map_toUpper_idem]

/-- Witness for C10: a whitespace-only input normalizes to the empty string
(via the theorem), and " msft " normalizes to "MSFT". -/
theorem normalize_symbol_total_idem_witness :
    normalize_symbol (some [' ', ' ']) = [] ∧
    normalize_symbol (some [' ', 'm', 's', 'f', 't', ' ']) = ['M', 'S', 'F', 'T'] :=
  ⟨(normalize_symbol_total_idem (some [' ', ' '])).2.2.1 [' ', ' '] rfl (by decide),
   by decide⟩

/-! ## Helper lemmas: the fetcher's trace and result -/

/-- The primary-endpoint phase of the trace (lines 35-38). -/
def dailyPart (net : Nat → Resp) : List Ev :=
  if (net 0).hasNote then [Ev.req FN_DAILY, Ev.sleep 12, Ev.req FN_DAILY]
  else [Ev.req FN_DAILY]

/-- The adjusted-endpoint phase of the trace (lines 42-46), empty when the
primary series was usable. -/
def adjPart (net : Nat → Resp) : List Ev :=
  if truthy (primaryData net).tsDaily then []
  else if (net (adjCallIdx net)).hasNote then
    [Ev.req FN_DAILY_ADJUSTED, Ev.sleep 12, Ev.req FN_DAILY_ADJUSTED]
  else [Ev.req FN_DAILY_ADJUSTED]

theorem fetch_daily_trace (net : Nat → Resp) :
    (fetch_daily net).trace = dailyPart net ++ adjPart net := by
  unfold fetch_daily dailyPart adjPart primaryData adjCallIdx
  cases h0 : (net 0).hasNote
  · cases h1 : truthy (net 0).tsDaily
    · cases h2 : (net 1).hasNote <;> simp [h0, h1, h2] <;> split <;> rfl
    · simp [h0, h1]
  · cases h1 : truthy (net 1).tsDaily
    · cases h2 : (net 2).hasNote <;> simp [h0, h1, h2] <;> split <;> rfl
    · simp [h0, h1]

theorem fetch_daily_result_char (net : Nat → Resp) :
    (fetch_daily net).result =
      (if truthy (primaryData net).tsDaily then
        Except.ok (parseTable ((primaryData net).tsDaily.getD []))
      else if truthy (pyOr (adjData net).tsDaily (adjData net).tsDailyAdjusted) then
        Except.ok (parseTable ((pyOr (adjData net).tsDaily (adjData net).tsDailyAdjusted).getD []))
      else Except.error noDataMsg) := by
  unfold fetch_daily primaryData adjData adjCallIdx
  cases h0 : (net 0).hasNote
  · cases h1 : truthy (net 0).tsDaily
    · cases h2 : (net 1).hasNote <;> simp [h0, h1, h2] <;> split <;> rfl
    · simp [h0, h1]
  · cases h1 : truthy (net 1).tsDaily
    · cases h2 : (net 2).hasNote <;> simp [h0, h1, h2] <;> split <;> rfl
    · simp [h0, h1]

/-! ## C2 -/

/-- C2: a rate-limit sentinel on an endpoint causes exactly one 12-second
back-off and one retry of the same request — never a third request to that
endpoint even if the retry is rate-limited again — and the identical policy
governs the adjusted endpoint when it is consulted. -/
theorem fetch_daily_rate_limit_retry (net : Nat → Resp) :
    countReq FN_DAILY (fetch_daily net).trace ≤ 2 ∧
    countReq FN_DAILY_ADJUSTED (fetch_daily net).trace ≤ 2 ∧
    ((net 0).hasNote = true →
      (fetch_daily net).trace.take 3 = [Ev.req FN_DAILY, Ev.sleep 12, Ev.req FN_DAILY] ∧
      countReq FN_DAILY (fetch_daily net).trace = 2) ∧
    ((net 0).hasNote = false → countReq FN_DAILY (fetch_daily net).trace = 1) ∧
    (truthy (primaryData net).tsDaily = false →
      Ev.req FN_DAILY_ADJUSTED ∈ (fetch_daily net).trace ∧
      ((net (adjCallIdx net)).hasNote = true →
        (fetch_daily net).trace.drop (dailyTraceLen net) =
          [Ev.req FN_DAILY_ADJUSTED, Ev.sleep 12, Ev.req FN_DAILY_ADJUSTED] ∧
        countReq FN_DAILY_ADJUSTED (fetch_daily net).trace = 2) ∧
      ((net (adjCallIdx net)).hasNote = false →
        countReq FN_DAILY_ADJUSTED (fetch_daily net).trace = 1)) ∧
    (truthy (primaryData net).tsDaily = true →
      countReq FN_DAILY_ADJUSTED (fetch_daily net).trace = 0) := by
  rw [fetch_daily_trace net]
  unfold dailyPart adjPart primaryData adjCallIdx dailyTraceLen
  cases h0 : (net 0).hasNote
  · cases h1 : truthy (net 0).tsDaily
    · cases h2 : (net 1).hasNote <;> simp [h0, h1, h2] <;> decide
    · (simp [h0, h1]; decide)
  · cases h1 : truthy (net 1).tsDaily
    · cases h2 : (net 2).hasNote <;> simp [h0, h1, h2] <;> decide
    · (simp [h0, h1]; decide)

/-- An oracle that answers both the first daily call and the first adjusted
call with the rate-limit sentinel and never returns a series. -/
def exNetRateLimited : Nat → Resp := fun i =>
  if i = 0 then ⟨true, false, none, none⟩
  else if i = 2 then ⟨true, false, none, none⟩
  else ⟨false, false, none, none⟩

/-- Witness for C2: against `exNetRateLimited` the fetcher issues exactly
two daily requests separated by a 12 s sleep, then exactly two adjusted
requests separated by a 12 s sleep. -/
theorem fetch_daily_rate_limit_retry_witness :
    (fetch_daily exNetRateLimited).trace.take 3 =
      [Ev.req FN_DAILY, Ev.sleep 12, Ev.req FN_DAILY] ∧
    countReq FN_DAILY (fetch_daily exNetRateLimited).trace = 2 ∧
    (fetch_daily exNetRateLimited).trace.drop 3 =
      [Ev.req FN_DAILY_ADJUSTED, Ev.sleep 12, Ev.req FN_DAILY_ADJUSTED] ∧
    countReq FN_DAILY_ADJUSTED (fetch_daily exNetRateLimited).trace = 2 := by
  obtain ⟨-, -, h3, -, h5, -⟩ := fetch_daily_rate_limit_retry exNetRateLimited
  have ha := h3 rfl
  have hb := h5 rfl
  exact ⟨ha.1, ha.2, (hb.2.1 rfl).1, (hb.2.1 rfl).2⟩

/-! ## C1 -/

/-- An oracle whose every response carries the invalid-symbol indicator
`"Error Message"` (and no series), as Alpha Vantage answers for an unknown
symbol. -/
def exNetInvalidSymbol : Nat → Resp := fun _ => ⟨false, true, none, none⟩

/-- C1 counterexample: on a response carrying the explicit invalid-symbol
error indicator the fetcher does NOT fail immediately with a distinct
`InvalidSymbol` failure — it goes on to request the adjusted-series
endpoint and then fails with the generic no-data `RuntimeError` message. -/
theorem invalid_symbol_counterexample :
    (exNetInvalidSymbol 0).hasErrorMessage = true ∧
    Ev.req FN_DAILY_ADJUSTED ∈ (fetch_daily exNetInvalidSymbol).trace ∧
    (fetch_daily exNetInvalidSymbol).trace = [Ev.req FN_DAILY, Ev.req FN_DAILY_ADJUSTED] ∧
    (fetch_daily exNetInvalidSymbol).result = Except.error noDataMsg := by
  refine ⟨rfl, by decide, rfl, rfl⟩

/-- C1 (amended): the code never inspects the invalid-symbol indicator —
`fetch_daily` behaves identically whatever that field holds; a response
without a usable primary series leads to an adjusted-endpoint request, and
if no series is found there either, the fetch fails with the generic
no-data error (there is no distinct `InvalidSymbol` failure). -/
theorem fetch_daily_ignores_error_indicator :
    (∀ (net : Nat → Resp) (f : Nat → Bool),
      fetch_daily (fun i => { net i with hasErrorMessage := f i }) = fetch_daily net) ∧
    (∀ net : Nat → Resp, truthy (primaryData net).tsDaily = false →
      Ev.req FN_DAILY_ADJUSTED ∈ (fetch_daily net).trace ∧
      (truthy (pyOr (adjData net).tsDaily (adjData net).tsDailyAdjusted) = false →
        (fetch_daily net).result = Except.error noDataMsg)) := by
  constructor
  · intro net f
    unfold fetch_daily
    cases h0 : (net 0).hasNote
    · cases h1 : truthy (net 0).tsDaily
      · cases h2 : (net 1).hasNote <;> simp [h0, h1, h2]
      · simp [h0, h1]
    · cases h1 : truthy (net 1).tsDaily
      · cases h2 : (net 2).hasNote <;> simp [h0, h1, h2]
      · simp [h0, h1]
  · intro net hp
    constructor
    · rw [fetch_daily_trace net]
      unfold adjPart
      rw [hp]
      cases h2 : (net (adjCallIdx net)).hasNote <;> simp [h2]
    · intro hb
      rw [fetch_daily_result_char net, hp, hb]
      simp

/-- Witness for C1's amended statement: deleting the error indicator from
the invalid-symbol oracle changes nothing, and the fetch fails with the
generic no-data message. -/
theorem fetch_daily_ignores_error_indicator_witness :
    fetch_daily (fun i => { exNetInvalidSymbol i with hasErrorMessage := false }) =
      fetch_daily exNetInvalidSymbol ∧
    (fetch_daily exNetInvalidSymbol).result = Except.error noDataMsg := by
  obtain ⟨h1, h2⟩ := fetch_daily_ignores_error_indicator
  exact ⟨h1 exNetInvalidSymbol (fun _ => false), (h2 exNetInvalidSymbol rfl).2 rfl⟩

/-! ## Helper lemmas: substring containment -/

theorem isPrefOf_self (n : List Char) : isPrefOf n n = true := by
  induction n with
  | nil => rfl
  | cons a as ih => simp [isPrefOf, ih]

theorem isPrefOf_append (n m : List Char) : isPrefOf n (n ++ m) = true := by
  induction n with
  | nil => rfl
  | cons a as ih => simp [isPrefOf, ih]

theorem containsSub_of_isPrefOf (n h : List Char) (hp : isPrefOf n h = true) :
    containsSub n h = true := by
  cases h with
  | nil =>
    cases n with
    | nil => rfl
    | cons a as => simp [isPrefOf] at hp
  | cons b bs => simp [containsSub, hp]

theorem containsSub_append_left (n m : List Char) : containsSub n (n ++ m) = true :=
  containsSub_of_isPrefOf n (n ++ m) (isPrefOf_append n m)

theorem containsSub_append_right (n pre : List Char) : containsSub n (pre ++ n) = true := by
  induction pre with
  | nil => exact containsSub_of_isPrefOf n n (isPrefOf_self n)
  | cons p pre ih => simp [containsSub, ih]

/-! ## Concrete fixtures -/

def exSym : String := "MSFT"

/-- The ASCII word the spec says the fallback status contains. -/
def asciiFallback : String := "fallback"

def exKey : String := "demo"

def exTable : List Row := [⟨0, some 1, some 1, some 1, some 1, some 1⟩]

def exLastOk : LastOk := [(exSym, exTable)]

def exApp : AppState := ⟨[((exSym, exKey), ⟨exTable, 0⟩)], [(exSym, exTable)]⟩

def exOkFetcher : Unit → Except String (List Row) := fun _ => Except.ok exTable

def exFailFetcher : Unit → Except String (List Row) := fun _ => Except.error noDataMsg

/-! ## C4 -/

/-- C4 counterexample: on a failed fetch with a recorded last-known-good
table the pipeline does serve the prior table, but the status text is
"フォールバック表示：" followed by the message — it does not contain the
ASCII word "fallback". -/
theorem fallback_status_counterexample :
    (fetchStage (Except.error noDataMsg) exSym exLastOk).df = some exTable ∧
    (fetchStage (Except.error noDataMsg) exSym exLastOk).status =
      some (fallbackLabel ++ noDataMsg) ∧
    containsSub asciiFallback.data (fallbackLabel ++ noDataMsg).data = false := by
  refine ⟨rfl, rfl, by decide⟩

/-- C4 (amended): when the fetch fails and a prior successful fetch for the
symbol is recorded, the pipeline returns that prior table unchanged and a
status text equal to the app's fallback label "フォールバック表示："
followed by the failure's message — so the status contains the (Japanese)
fallback marker and the failure's message, not the ASCII word
"fallback". -/
theorem fallback_serves_last_ok (e : String) (lo : LastOk) (sym : String)
    (df : List Row) (h : lookupLO lo sym = some df) :
    fetchStage (Except.error e) sym lo =
      ⟨some df, some (fallbackLabel ++ e), lo⟩ ∧
    containsSub fallbackLabel.data (fallbackLabel ++ e).data = true ∧
    containsSub e.data (fallbackLabel ++ e).data = true := by
  refine ⟨?_, ?_, ?_⟩
  · simp [fetchStage, h]
  · rw [String.data_append]
    exact containsSub_append_left fallbackLabel.data e.data
  · rw [String.data_append]
    exact containsSub_append_right e.data fallbackLabel.data

/-- Witness for C4's amended statement at the concrete store `exLastOk`. -/
theorem fallback_serves_last_ok_witness :
    fetchStage (Except.error noDataMsg) exSym exLastOk =
      ⟨some exTable, some (fallbackLabel ++ noDataMsg), exLastOk⟩ ∧
    containsSub fallbackLabel.data (fallbackLabel ++ noDataMsg).data = true :=
  have h := fallback_serves_last_ok noDataMsg exLastOk exSym exTable rfl
  ⟨h.1, h.2.1⟩

/-! ## C9 -/

/-- C9: the clear-cache action removes every cache entry but leaves the
last-known-good store untouched, so after a clear followed by a failed
refetch the fallback table is still served. -/
theorem clear_cache_preserves_last_ok (s : AppState) (sym cred : String) (now : Nat)
    (f : Unit → Except String (List Row)) (e : String) (df : List Row)
    (hf : f () = Except.error e) (hlo : lookupLO s.last_ok sym = some df) :
    (clearAction s).last_ok = s.last_ok ∧
    (clearAction s).cache = [] ∧
    (get_or_fetch (clearAction s).cache (sym, cred) now f).2.2 = true ∧
    (get_or_fetch (clearAction s).cache (sym, cred) now f).1 = Except.error e ∧
    (fetchStage (get_or_fetch (clearAction s).cache (sym, cred) now f).1 sym
      (clearAction s).last_ok).df = some df := by
  have hc : (clearAction s).cache = [] := rfl
  have hl : (clearAction s).last_ok = s.last_ok := rfl
  have h1 : get_or_fetch (clearAction s).cache (sym, cred) now f =
      (Except.error e, [], true) := by
    rw [hc]
    unfold get_or_fetch lookupC
    simp [hf]
  refine ⟨hl, hc, by rw [h1], by rw [h1], ?_⟩
  rw [h1, hl]
  simp [fetchStage, hlo]

/-- Witness for C9: clearing the concrete app state keeps the snapshot for
`exSym` available through a failed refetch. -/
theorem clear_cache_preserves_last_ok_witness :
    (clearAction exApp).last_ok = exApp.last_ok ∧
    (clearAction exApp).cache = [] ∧
    (fetchStage (get_or_fetch (clearAction exApp).cache (exSym, exKey) 900 exFailFetcher).1
      exSym (clearAction exApp).last_ok).df = some exTable := by
  obtain ⟨h1, h2, -, -, h5⟩ := clear_cache_preserves_last_ok exApp exSym exKey 900
    exFailFetcher noDataMsg exTable rfl rfl
  exact ⟨h1, h2, h5⟩

/-! ## C3 -/

/-- C3 (spec-modelled cache): starting from an empty cache, the first call
invokes the fetcher and stores the result; a second call for the same key
within the 15-minute TTL does not invoke its fetcher and returns the stored
table; any call after `clear()` invokes the fetcher again regardless of
entry age. -/
theorem cache_ttl_single_invocation (k : CKey) (t0 t1 : Nat) (table : List Row)
    (f g : Unit → Except String (List Row)) (hf : f () = Except.ok table)
    (httl : t1 - t0 ≤ TTL_SECONDS) :
    (get_or_fetch [] k t0 f).2.2 = true ∧
    (get_or_fetch (get_or_fetch [] k t0 f).2.1 k t1 g).2.2 = false ∧
    (get_or_fetch (get_or_fetch [] k t0 f).2.1 k t1 g).1 = Except.ok table ∧
    (∀ (st : CacheState) (t2 : Nat) (h : Unit → Except String (List Row)),
      (get_or_fetch (clearCache st) k t2 h).2.2 = true) := by
  have h1 : get_or_fetch [] k t0 f = (Except.ok table, [(k, ⟨table, t0⟩)], true) := by
    unfold get_or_fetch lookupC putC
    simp [hf]
  have h2 : get_or_fetch (get_or_fetch [] k t0 f).2.1 k t1 g =
      (Except.ok table, [(k, ⟨table, t0⟩)], false) := by
    rw [h1]
    unfold get_or_fetch lookupC
    simp [httl]
  refine ⟨by rw [h1], by rw [h2], by rw [h2], ?_⟩
  intro st t2 h
  unfold get_or_fetch lookupC clearCache
  cases hh : h () <;> simp [hh]

/-- Witness for C3: a fetch at t=0, a cache hit at t=60 (which does not
invoke the — failing — second fetcher), and a renewed invocation after
`clear()` at an arbitrarily late time. -/
theorem cache_ttl_single_invocation_witness :
    (get_or_fetch [] (exSym, exKey) 0 exOkFetcher).2.2 = true ∧
    (get_or_fetch (get_or_fetch [] (exSym, exKey) 0 exOkFetcher).2.1 (exSym, exKey) 60
      exFailFetcher).2.2 = false ∧
    (get_or_fetch (get_or_fetch [] (exSym, exKey) 0 exOkFetcher).2.1 (exSym, exKey) 60
      exFailFetcher).1 = Except.ok exTable ∧
    (get_or_fetch (clearCache (get_or_fetch [] (exSym, exKey) 0 exOkFetcher).2.1)
      (exSym, exKey) 1000000 exFailFetcher).2.2 = true := by
  obtain ⟨h1, h2, h3, h4⟩ := cache_ttl_single_invocation (exSym, exKey) 0 60 exTable
    exOkFetcher exFailFetcher rfl (by decide)
  exact ⟨h1, h2, h3, h4 _ 1000000 exFailFetcher⟩

/-! ## C6 -/

/-- C6 (code bug): the rename map of lines 52-55 sends both `"4. close"`
and `"5. adjusted close"` to `"Close"`, so a series served by the adjusted
endpoint is renamed into a frame with TWO `Close` columns — not "exactly
one value for each of the five canonical columns" — whereas the primary
series gets exactly one column per canonical name.  (On the duplicated
selection, `pd.to_numeric(df["Close"])` at line 58 then raises a
`TypeError`, contradicting the docstring's claimed Adjusted support.) -/
theorem adjusted_close_duplicate_column :
    renamedCount COL_CLOSE adjustedFieldLabels = 2 ∧
    renamedCount COL_VOLUME adjustedFieldLabels = 1 ∧
    renamedCount COL_OPEN adjustedFieldLabels = 1 ∧
    renamedCount COL_CLOSE primaryFieldLabels = 1 ∧
    renamedCount COL_VOLUME primaryFieldLabels = 1 := by
  refine ⟨by decide, by decide, by decide, by decide, by decide⟩

/-! ## Helper lemmas: the insertion sort of `parseTable` -/

theorem insertByDate_length (r : Row) (l : List Row) :
    (insertByDate r l).length = l.length + 1 := by
  induction l with
  | nil => rfl
  | cons x xs ih =>
    unfold insertByDate
    by_cases h : r.date ≤ x.date
    · simp [h]
    · simp [h, ih]

theorem sortByDate_length (l : List Row) : (sortByDate l).length = l.length := by
  induction l with
  | nil => rfl
  | cons x xs ih =>
    unfold sortByDate at ih ⊢
    rw [List.foldr_cons, insertByDate_length, ih, List.length_cons]

theorem mem_insertByDate (r x : Row) (l : List Row) :
    x ∈ insertByDate r l ↔ x = r ∨ x ∈ l := by
  induction l with
  | nil => simp [insertByDate]
  | cons y ys ih =>
    unfold insertByDate
    by_cases h : r.date ≤ y.date
    · simp [h]
    · simp [h, ih]
      tauto

theorem mem_sortByDate (x : Row) (l : List Row) : x ∈ sortByDate l ↔ x ∈ l := by
  induction l with
  | nil => simp [sortByDate]
  | cons y ys ih =>
    unfold sortByDate at ih ⊢
    rw [List.foldr_cons, mem_insertByDate]
    simp [ih]

/-! ## C7 -/

/-- A raw bar whose volume cell fails `pd.to_numeric` (e.g. the provider
sent a non-numeric string), all other cells parsing fine. -/
def exBadRawRow : RawRow :=
  ⟨5, [("1. open", some 1), ("2. high", some 2), ("3. low", some 1),
       ("4. close", some 2), ("5. volume", none)]⟩

/-- C7 counterexample: a row with an unparseable numeric field is NOT
dropped from the canonical table — it is kept, with a missing value in the
failed field. -/
theorem parse_drop_counterexample :
    parseTable [exBadRawRow] = [⟨5, some 1, some 2, some 1, some 2, none⟩] ∧
    (⟨5, some 1, some 2, some 1, some 2, none⟩ : Row).Volume = none := by
  exact ⟨by decide, rfl⟩

/-- C7 (amended): `pd.to_numeric(errors="coerce")` at lines 56-58 never
drops a row — the parsed table has exactly one row per raw bar, each raw
bar's canonical row appearing in it, with fields that failed to parse held
as missing values. -/
theorem parse_keeps_unparsed_rows (ts : RawSeries) :
    (parseTable ts).length = ts.length ∧
    (∀ r, r ∈ ts → toRow r ∈ parseTable ts) := by
  constructor
  · unfold parseTable
    rw [sortByDate_length, List.length_map]
  · intro r hr
    unfold parseTable
    rw [mem_sortByDate]
    exact List.mem_map_of_mem toRow hr

/-- Witness for C7's amended statement at the concrete bad row. -/
theorem parse_keeps_unparsed_rows_witness :
    (parseTable [exBadRawRow]).length = 1 ∧ toRow exBadRawRow ∈ parseTable [exBadRawRow] :=
  have h := parse_keeps_unparsed_rows [exBadRawRow]
  ⟨h.1, h.2 exBadRawRow (by decide)⟩

/-! ## Helper lemmas: aggregation -/

theorem foldl_max_acc_or_mem (m : List ℚ) : ∀ x : ℚ, m.foldl max x = x ∨ m.foldl max x ∈ m := by
  induction m with
  | nil => intro x; exact Or.inl rfl
  | cons a as ih =>
    intro x
    simp only [List.foldl_cons]
    rcases ih (max x a) with h | h
    · rcases max_choice x a with hm | hm
      · left; rw [h, hm]
      · right; rw [h, hm]; exact List.mem_cons_self a as
    · right; exact List.mem_cons_of_mem a h

theorem le_foldl_max (m : List ℚ) :
    ∀ x : ℚ, x ≤ m.foldl max x ∧ ∀ y ∈ m, y ≤ m.foldl max x := by
  induction m with
  | nil => intro x; exact ⟨le_refl x, by simp⟩
  | cons a as ih =>
    intro x
    obtain ⟨h1, h2⟩ := ih (max x a)
    refine ⟨?_, ?_⟩
    · simp only [List.foldl_cons]
      exact le_trans (le_max_left x a) h1
    · intro y hy
      simp only [List.foldl_cons]
      rcases List.mem_cons.mp hy with rfl | hy2
      · exact le_trans (le_max_right x y) h1
      · exact h2 y hy2

theorem foldl_max_le (m : List ℚ) :
    ∀ x q : ℚ, x ≤ q → (∀ y ∈ m, y ≤ q) → m.foldl max x ≤ q := by
  induction m with
  | nil => intro x q h _; exact h
  | cons a as ih =>
    intro x q hx hall
    simp only [List.foldl_cons]
    exact ih (max x a) q (max_le hx (hall a (List.mem_cons_self a as)))
      (fun y hy => hall y (List.mem_cons_of_mem a hy))

theorem maxQ_eq_some_iff (l : List ℚ) (q : ℚ) :
    maxQ l = some q ↔ q ∈ l ∧ ∀ x ∈ l, x ≤ q := by
  cases l with
  | nil => simp [maxQ]
  | cons a as =>
    simp only [maxQ, Option.some.injEq]
    constructor
    · rintro rfl
      refine ⟨?_, ?_⟩
      · rcases foldl_max_acc_or_mem as a with h | h
        · rw [h]; exact List.mem_cons_self a as
        · exact List.mem_cons_of_mem a h
      · intro x hx
        rcases List.mem_cons.mp hx with rfl | hx2
        · exact (le_foldl_max as x).1
        · exact (le_foldl_max as a).2 x hx2
    · rintro ⟨hmem, hub⟩
      apply le_antisymm
      · exact foldl_max_le as a q (hub a (List.mem_cons_self a as))
          (fun y hy => hub y (List.mem_cons_of_mem a hy))
      · rcases List.mem_cons.mp hmem with rfl | hq
        · exact (le_foldl_max as q).1
        · exact (le_foldl_max as a).2 q hq

theorem foldl_min_acc_or_mem (m : List ℚ) : ∀ x : ℚ, m.foldl min x = x ∨ m.foldl min x ∈ m := by
  induction m with
  | nil => intro x; exact Or.inl rfl
  | cons a as ih =>
    intro x
    simp only [List.foldl_cons]
    rcases ih (min x a) with h | h
    · rcases min_choice x a with hm | hm
      · left; rw [h, hm]
      · right; rw [h, hm]; exact List.mem_cons_self a as
    · right; exact List.mem_cons_of_mem a h

theorem foldl_min_le (m : List ℚ) :
    ∀ x : ℚ, m.foldl min x ≤ x ∧ ∀ y ∈ m, m.foldl min x ≤ y := by
  induction m with
  | nil => intro x; exact ⟨le_refl x, by simp⟩
  | cons a as ih =>
    intro x
    obtain ⟨h1, h2⟩ := ih (min x a)
    refine ⟨?_, ?_⟩
    · simp only [List.foldl_cons]
      exact le_trans h1 (min_le_left x a)
    · intro y hy
      simp only [List.foldl_cons]
      rcases List.mem_cons.mp hy with rfl | hy2
      · exact le_trans h1 (min_le_right x y)
      · exact h2 y hy2

theorem le_foldl_min (m : List ℚ) :
    ∀ x q : ℚ, q ≤ x → (∀ y ∈ m, q ≤ y) → q ≤ m.foldl min x := by
  induction m with
  | nil => intro x q h _; exact h
  | cons a as ih =>
    intro x q hx hall
    simp only [List.foldl_cons]
    exact ih (min x a) q (le_min hx (hall a (List.mem_cons_self a as)))
      (fun y hy => hall y (List.mem_cons_of_mem a hy))

theorem minQ_eq_some_iff (l : List ℚ) (q : ℚ) :
    minQ l = some q ↔ q ∈ l ∧ ∀ x ∈ l, q ≤ x := by
  cases l with
  | nil => simp [minQ]
  | cons a as =>
    simp only [minQ, Option.some.injEq]
    constructor
    · rintro rfl
      refine ⟨?_, ?_⟩
      · rcases foldl_min_acc_or_mem as a with h | h
        · rw [h]; exact List.mem_cons_self a as
        · exact List.mem_cons_of_mem a h
      · intro x hx
        rcases List.mem_cons.mp hx with rfl | hx2
        · exact (foldl_min_le as x).1
        · exact (foldl_min_le as a).2 x hx2
    · rintro ⟨hmem, hlb⟩
      apply le_antisymm
      · rcases List.mem_cons.mp hmem with rfl | hq
        · exact (foldl_min_le as q).1
        · exact (foldl_min_le as a).2 q hq
      · exact le_foldl_min as a q (hlb a (List.mem_cons_self a as))
          (fun y hy => hlb y (List.mem_cons_of_mem a hy))

theorem firstSome_eq (l : List (Option ℚ)) : firstSome l = (l.filterMap id).head? := by
  induction l with
  | nil => rfl
  | cons a as ih =>
    cases a with
    | none => simpa [firstSome, List.filterMap_cons] using ih
    | some x => simp [firstSome, List.filterMap_cons]

theorem filterMap_id_reverse (l : List (Option ℚ)) :
    l.reverse.filterMap id = (l.filterMap id).reverse := by
  induction l with
  | nil => rfl
  | cons a as ih => cases a <;> simp [List.filterMap_cons, ih]

theorem lastSome_eq (l : List (Option ℚ)) : lastSome l = (l.filterMap id).getLast? := by
  unfold lastSome
  rw [firstSome_eq, filterMap_id_reverse, List.head?_reverse]

theorem firstSome_isSome_iff (l : List (Option ℚ)) :
    (firstSome l).isSome = true ↔ l.filterMap id ≠ [] := by
  rw [firstSome_eq]
  cases h : l.filterMap id <;> simp [h]

theorem lastSome_isSome_iff (l : List (Option ℚ)) :
    (lastSome l).isSome = true ↔ l.filterMap id ≠ [] := by
  unfold lastSome
  rw [firstSome_isSome_iff, filterMap_id_reverse]
  simp

theorem maxQ_isSome_iff (l : List ℚ) : (maxQ l).isSome = true ↔ l ≠ [] := by
  cases l <;> simp [maxQ]

theorem minQ_isSome_iff (l : List ℚ) : (minQ l).isSome = true ↔ l ≠ [] := by
  cases l <;> simp [minQ]

theorem map_filterMap_id (f : Row → Option ℚ) (g : List Row) :
    (g.map f).filterMap id = g.filterMap f := by
  rw [List.filterMap_map]
  rfl

theorem keep_aggRow_iff (k : Nat) (g : List Row) :
    keepRow (aggRow k g) = true ↔
      (g.filterMap (·.Open) ≠ [] ∧ g.filterMap (·.High) ≠ [] ∧
       g.filterMap (·.Low) ≠ [] ∧ g.filterMap (·.Close) ≠ []) := by
  unfold keepRow aggRow
  simp only [Bool.and_eq_true, Option.isSome_some, and_true]
  rw [firstSome_isSome_iff, map_filterMap_id, maxQ_isSome_iff, minQ_isSome_iff,
    lastSome_isSome_iff, map_filterMap_id]
  tauto

theorem mem_resample (b : Nat → Nat) (t : List Row) (r : Row) :
    r ∈ resample_ohlc b t ↔
      ∃ k, k ∈ keysIn b t ∧ r = aggRow k (groupOf b t k) ∧
        (groupOf b t k).filterMap (·.Open) ≠ [] ∧
        (groupOf b t k).filterMap (·.High) ≠ [] ∧
        (groupOf b t k).filterMap (·.Low) ≠ [] ∧
        (groupOf b t k).filterMap (·.Close) ≠ [] := by
  unfold resample_ohlc
  rw [List.mem_filter, List.mem_map]
  constructor
  · rintro ⟨⟨k, hk, rfl⟩, hkeep⟩
    obtain ⟨h1, h2, h3, h4⟩ := (keep_aggRow_iff k _).mp hkeep
    exact ⟨k, hk, rfl, h1, h2, h3, h4⟩
  · rintro ⟨k, hk, rfl, h1, h2, h3, h4⟩
    exact ⟨⟨k, hk, rfl⟩, (keep_aggRow_iff k _).mpr ⟨h1, h2, h3, h4⟩⟩

/-- The spec's single-calendar-week example table (§8): five trading days
of one week, opens 10..14, closes 11..15, highs 12..16, lows 9..13,
volumes 100 each. -/
def exWeek : List Row :=
  [⟨0, some 10, some 12, some 9, some 11, some 100⟩,
   ⟨1, some 11, some 13, some 10, some 12, some 100⟩,
   ⟨2, some 12, some 14, some 11, some 13, some 100⟩,
   ⟨3, some 13, some 15, some 12, some 14, some 100⟩,
   ⟨4, some 14, some 16, some 13, some 15, some 100⟩]

/-- A one-row daily table whose volume failed to parse (missing), all four
price fields present. -/
def exMissingVol : List Row := [⟨0, some 10, some 12, some 9, some 11, none⟩]

/-! ## C5 -/

/-- C5 counterexample: in a bucket whose volume inputs are entirely missing
the volume aggregate is "undefined" by the spec's own words, so the spec's
resampler drops the bucket — but pandas `sum` yields 0 for an all-missing
bucket, so the code keeps the bar with volume 0. -/
theorem resample_drop_counterexample :
    spec_resample weekLabel exMissingVol = [] ∧
    resample_ohlc weekLabel exMissingVol = [⟨6, some 10, some 12, some 9, some 11, some 0⟩] := by
  exact ⟨rfl, rfl⟩

/-- C5 (amended): per bucket the code takes the FIRST NON-MISSING open and
LAST NON-MISSING close (pandas `first`/`last` skip missing values), the
maximum/minimum over the non-missing highs/lows, and the sum of the
non-missing volumes (0 when all are missing, never undefined); a bucket is
dropped exactly when one of open/high/low/close has no non-missing input.
On the spec's fully-populated one-calendar-week example this gives the
stated single weekly bar open=10, high=16, low=9, close=15, volume=500. -/
theorem resample_ohlc_characterization :
    (∀ (l : List ℚ) (q : ℚ), maxQ l = some q ↔ q ∈ l ∧ ∀ x ∈ l, x ≤ q) ∧
    (∀ (l : List ℚ) (q : ℚ), minQ l = some q ↔ q ∈ l ∧ ∀ x ∈ l, q ≤ x) ∧
    (∀ l : List (Option ℚ), firstSome l = (l.filterMap id).head?) ∧
    (∀ l : List (Option ℚ), lastSome l = (l.filterMap id).getLast?) ∧
    (∀ (b : Nat → Nat) (t : List Row) (r : Row),
      r ∈ resample_ohlc b t ↔
        ∃ k, k ∈ keysIn b t ∧ r = aggRow k (groupOf b t k) ∧
          (groupOf b t k).filterMap (·.Open) ≠ [] ∧
          (groupOf b t k).filterMap (·.High) ≠ [] ∧
          (groupOf b t k).filterMap (·.Low) ≠ [] ∧
          (groupOf b t k).filterMap (·.Close) ≠ []) ∧
    resample_ohlc weekLabel exWeek = [⟨6, some 10, some 16, some 9, some 15, some 500⟩] := by
  refine ⟨maxQ_eq_some_iff, minQ_eq_some_iff, firstSome_eq, lastSome_eq, mem_resample, ?_⟩
  norm_num [resample_ohlc, keysIn, uniq, groupOf, aggRow, keepRow, firstSome, lastSome,
    maxQ, minQ, sumQ, weekLabel, exWeek, List.filterMap_cons, List.filterMap_nil,
    List.foldl_cons, List.foldl_nil, List.filter_cons, List.filter_nil, max_def, min_def]

/-- Witness for C5's amended statement: the maximum characterization at a
concrete list, and the weekly bar's membership obtained through the
characterization. -/
theorem resample_ohlc_characterization_witness :
    maxQ [(12 : ℚ), 13, 14, 15, 16] = some 16 ∧
    (⟨6, some 10, some 16, some 9, some 15, some 500⟩ : Row) ∈ resample_ohlc weekLabel exWeek := by
  obtain ⟨hmax, -, -, -, -, hconc⟩ := resample_ohlc_characterization
  refine ⟨(hmax _ _).mpr ⟨by decide, by decide⟩, ?_⟩
  rw [hconc]
  exact List.mem_singleton_self _

/-! ## Helper lemmas: first-occurrence keys and singleton buckets -/

theorem uniq_mem_sub (m : List Nat) : ∀ (seen : List Nat) (k : Nat), k ∈ uniq seen m → k ∈ m := by
  induction m with
  | nil => intro seen k h; simp [uniq] at h
  | cons a ms ih =>
    intro seen k h
    unfold uniq at h
    by_cases ha : a ∈ seen
    · rw [if_pos ha] at h
      exact List.mem_cons_of_mem a (ih seen k h)
    · rw [if_neg ha] at h
      rcases List.mem_cons.mp h with rfl | h2
      · exact List.mem_cons_self _ _
      · exact List.mem_cons_of_mem a (ih _ k h2)

theorem uniq_not_mem_seen (m : List Nat) :
    ∀ (seen : List Nat) (k : Nat), k ∈ uniq seen m → k ∉ seen := by
  induction m with
  | nil => intro seen k h; simp [uniq] at h
  | cons a ms ih =>
    intro seen k h
    unfold uniq at h
    by_cases ha : a ∈ seen
    · rw [if_pos ha] at h
      exact ih seen k h
    · rw [if_neg ha] at h
      rcases List.mem_cons.mp h with rfl | h2
      · exact ha
      · intro hk
        exact ih (a :: seen) k h2 (List.mem_cons_of_mem a hk)

theorem uniq_nodup (m : List Nat) : ∀ seen : List Nat, (uniq seen m).Nodup := by
  induction m with
  | nil => intro seen; simp [uniq]
  | cons a ms ih =>
    intro seen
    unfold uniq
    by_cases ha : a ∈ seen
    · rw [if_pos ha]; exact ih seen
    · rw [if_neg ha]
      refine List.nodup_cons.mpr ⟨?_, ih (a :: seen)⟩
      intro hmem
      exact uniq_not_mem_seen ms (a :: seen) a hmem (List.mem_cons_self a seen)

theorem uniq_eq_self (m : List Nat) :
    ∀ seen : List Nat, m.Nodup → (∀ k ∈ m, k ∉ seen) → uniq seen m = m := by
  induction m with
  | nil => intro seen _ _; rfl
  | cons a ms ih =>
    intro seen hnd hks
    unfold uniq
    rw [if_neg (hks a (List.mem_cons_self a ms))]
    congr 1
    refine ih (a :: seen) (List.nodup_cons.mp hnd).2 ?_
    intro k hk hmem
    rcases List.mem_cons.mp hmem with rfl | hmem2
    · exact (List.nodup_cons.mp hnd).1 hk
    · exact hks k (List.mem_cons_of_mem a hk) hmem2

theorem filter_date_singleton (u : List Row) (r : Row)
    (hnd : (u.map Row.date).Nodup) (hr : r ∈ u) :
    u.filter (fun x => x.date == r.date) = [r] := by
  induction u with
  | nil => simp at hr
  | cons y ys ih =>
    simp only [List.map_cons, List.nodup_cons] at hnd
    rw [List.filter_cons]
    rcases List.mem_cons.mp hr with rfl | hr2
    · rw [if_pos (by simp)]
      have hnil : ys.filter (fun x => x.date == r.date) = [] := by
        rw [List.filter_eq_nil_iff]
        intro x hx hbeq
        have hxd : x.date = r.date := by simpa using hbeq
        exact hnd.1 (hxd ▸ List.mem_map_of_mem Row.date hx)
      rw [hnil]
    · have hy : (y.date == r.date) = false := by
        by_contra hcon
        simp only [Bool.not_eq_false, beq_iff_eq] at hcon
        exact hnd.1 (hcon ▸ List.mem_map_of_mem Row.date hr2)
      rw [if_neg (by simp [hy])]
      exact ih hnd.2 hr2

theorem aggRow_singleton (r : Row) (hkeep : keepRow r = true) : aggRow r.date [r] = r := by
  obtain ⟨d, o, h, l, c, v⟩ := r
  simp only [keepRow, Bool.and_eq_true, Option.isSome_iff_exists] at hkeep
  obtain ⟨⟨⟨⟨⟨o2, ho⟩, h2, hh⟩, l2, hl⟩, c2, hc⟩, v2, hv⟩ := hkeep
  subst ho hh hl hc hv
  simp [aggRow, firstSome, lastSome, maxQ, minQ, sumQ]

/-- A table whose rows all have bucket-fixed dates, no missing aggregates,
and pairwise-distinct dates is a fixed point of the resampler. -/
theorem resample_fixed (b : Nat → Nat) (u : List Row)
    (hfix : ∀ r ∈ u, b r.date = r.date)
    (hkeep : ∀ r ∈ u, keepRow r = true)
    (hnd : (u.map Row.date).Nodup) :
    resample_ohlc b u = u := by
  have hkeys : keysIn b u = u.map Row.date := by
    unfold keysIn
    have hm : u.map (fun r => b r.date) = u.map Row.date :=
      List.map_congr_left (fun r hr => hfix r hr)
    rw [hm]
    exact uniq_eq_self _ [] hnd (fun k _ h => (List.not_mem_nil k) h)
  have hgroups : ∀ r ∈ u, groupOf b u r.date = [r] := by
    intro r hr
    unfold groupOf
    have he : u.filter (fun x => b x.date == r.date) = u.filter (fun x => x.date == r.date) :=
      List.filter_congr (fun x hx => by rw [hfix x hx])
    rw [he]
    exact filter_date_singleton u r hnd hr
  unfold resample_ohlc
  rw [hkeys, List.map_map]
  have hmap : u.map ((fun k => aggRow k (groupOf b u k)) ∘ Row.date) = u := by
    have hpt : ∀ r ∈ u, ((fun k => aggRow k (groupOf b u k)) ∘ Row.date) r = id r := by
      intro r hr
      show aggRow r.date (groupOf b u r.date) = r
      rw [hgroups r hr]
      exact aggRow_singleton r (hkeep r hr)
    rw [List.map_congr_left hpt, List.map_id]
  rw [hmap]
  exact List.filter_eq_self.mpr hkeep

theorem resample_keepRow (b : Nat → Nat) (t : List Row) :
    ∀ r ∈ resample_ohlc b t, keepRow r = true := by
  intro r hr
  unfold resample_ohlc at hr
  exact (List.mem_filter.mp hr).2

theorem resample_date_fixed (b : Nat → Nat) (t : List Row) (hb : ∀ d, b (b d) = b d) :
    ∀ r ∈ resample_ohlc b t, b r.date = r.date := by
  intro r hr
  unfold resample_ohlc at hr
  obtain ⟨hmem, -⟩ := List.mem_filter.mp hr
  obtain ⟨k, hk, rfl⟩ := List.mem_map.mp hmem
  show b k = k
  obtain ⟨x, -, hx⟩ := List.mem_map.mp (uniq_mem_sub _ [] k hk)
  rw [← hx, hb]

theorem resample_dates_nodup (b : Nat → Nat) (t : List Row) :
    ((resample_ohlc b t).map Row.date).Nodup := by
  unfold resample_ohlc
  have hsub := (List.filter_sublist
    (l := (keysIn b t).map (fun k => aggRow k (groupOf b t k))) (p := keepRow)).map Row.date
  refine List.Nodup.sublist hsub ?_
  rw [List.map_map]
  have he : (keysIn b t).map (Row.date ∘ fun k => aggRow k (groupOf b t k)) = keysIn b t := by
    rw [show (Row.date ∘ fun k => aggRow k (groupOf b t k)) = id from rfl, List.map_id]
  rw [he]
  exact uniq_nodup _ []

/-! ## C8 -/

/-- C8: resampling a table that is already the output of resampling (with
the same calendar rule, whose bucket labelling is idempotent — pandas
labels a bucket by its end date, which labels to itself) yields the
identical table: same bars, same values, same order. -/
theorem resample_ohlc_idem (b : Nat → Nat) (t : List Row) (hb : ∀ d, b (b d) = b d) :
    resample_ohlc b (resample_ohlc b t) = resample_ohlc b t :=
  resample_fixed b (resample_ohlc b t)
    (resample_date_fixed b t hb)
    (resample_keepRow b t)
    (resample_dates_nodup b t)

theorem weekLabel_idem (d : Nat) : weekLabel (weekLabel d) = weekLabel d := by
  unfold weekLabel
  omega

/-- Witness for C8 at the weekly labelling and the concrete example week. -/
theorem resample_ohlc_idem_witness :
    resample_ohlc weekLabel (resample_ohlc weekLabel exWeek) =
      resample_ohlc weekLabel exWeek :=
  resample_ohlc_idem weekLabel exWeek weekLabel_idem

end StockApp
